import Mathlib

/-!
Verification of the JCL_AT_Buddy test-file parsing pipeline.

This file shallowly embeds the Python scripts of the repository that parse,
clean and consolidate multiple-choice test files, and proves (or refutes)
the frozen behavioural claims about them.

Strings are modelled as `List Char`.  Python's regular-expression operations
used by these scripts are all anchored, backtracking-free scans over
newline-free lines (the parsers split file content on newline characters
before matching), and each one is embedded as an explicit character-list
scanner.  Every such embedding carries a comment stating the regex it models.

`str.lower()` / `str.upper()` are modelled on the ASCII range, which covers
every character these scripts compare (keywords, header prefixes and option
letters are all ASCII).
-/

namespace Py

/-- Python `str.strip()` whitespace class: the characters matched by `\s`
(ASCII range): space, tab, newline, carriage return, vertical tab, form feed. -/
def isPySpace (c : Char) : Bool :=
  c = ' ' || c = '\t' || c = '\n' || c = '\x0d' || c = '\x0b' || c = '\x0c'

/-- `str.strip()`: drop leading and trailing whitespace. -/
def pyStrip (l : List Char) : List Char :=
  ((l.dropWhile isPySpace).reverse.dropWhile isPySpace).reverse

/-- ASCII `str.lower()` on one character. -/
def toLowerA (c : Char) : Char :=
  if 'A' ≤ c ∧ c ≤ 'Z' then Char.ofNat (c.toNat + 32) else c

/-- ASCII `str.upper()` on one character. -/
def toUpperA (c : Char) : Char :=
  if 'a' ≤ c ∧ c ≤ 'z' then Char.ofNat (c.toNat - 32) else c

/-- ASCII `str.lower()`. -/
def pyLower (l : List Char) : List Char := l.map toLowerA

/-- `l` begins with the literal sequence `p` (Python `str.startswith`). -/
def startsWithL : List Char → List Char → Bool
  | [], _ => true
  | _ :: _, [] => false
  | a :: p, b :: l => a = b && startsWithL p l

/-- `p` occurs as a contiguous substring of `l` (Python `in`). -/
def containsL (p : List Char) : List Char → Bool
  | [] => startsWithL p []
  | c :: rest => startsWithL p (c :: rest) || containsL p rest

/-- `c` is an ASCII decimal digit (regex `\d`). -/
def isDigitC (c : Char) : Bool := '0' ≤ c && c ≤ '9'

/-- Value of a decimal digit string (Python `int(...)` on the match). -/
def natOfDigits (ds : List Char) : Nat :=
  ds.foldl (fun n c => 10 * n + (c.toNat - '0'.toNat)) 0

/-- Python `str.split()` with no separator: split on runs of whitespace,
discarding empty pieces. -/
def pyWords (l : List Char) : List (List Char) :=
  (l.splitOnP isPySpace).filter (· ≠ [])

/-- Python `str.endswith(('.', ':'))`. -/
def endsWithDotColon (l : List Char) : Bool :=
  match l.getLast? with
  | some c => c = '.' || c = ':'
  | none => false

/-- Python dict assignment `d[k] = v` on an insertion-ordered association
list with distinct keys: replace the value of an existing key in place, or
append a new binding at the end. -/
def dictSet {α : Type} [DecidableEq α] (k : α) (v : List Char) :
    List (α × List Char) → List (α × List Char)
  | [] => [(k, v)]
  | (k', v') :: rest =>
      if k' = k then (k, v) :: rest else (k', v') :: dictSet k v rest

/-- Python dict assignment for `int → str` answer maps (letters as chars). -/
def dictSetNat (k : Nat) (v : Char) :
    List (Nat × Char) → List (Nat × Char)
  | [] => [(k, v)]
  | (k', v') :: rest =>
      if k' = k then (k, v) :: rest else (k', v') :: dictSetNat k v rest

/-- Python truthiness of an optional string (`if s:`): present and non-empty. -/
def truthy : Option (List Char) → Bool
  | some l => !l.isEmpty
  | none => false

end Py

open Py

namespace RemoveQuestionNewlines

/-- Model of `re.sub(r'\s+', ' ', l)`: every maximal run of whitespace is
replaced by a single space character, emitted at the first character of the
run (`prevWs` records whether the previous character was whitespace). -/
def collapseWsGo (prevWs : Bool) : List Char → List Char
  | [] => []
  | c :: r =>
      if isPySpace c then
        (if prevWs then [] else [' ']) ++ collapseWsGo true r
      else c :: collapseWsGo false r

/-- `re.sub(r'\s+', ' ', l)`. -/
def collapseWs (l : List Char) : List Char := collapseWsGo false l

/-- `clean_question_text` from `remove_question_newlines.py` (lines 13-24):
replace `'\n'` by `' '`, collapse whitespace runs (`re.sub(r'\s+', ' ', ·)`),
then `strip()`.  The `if not question_text` guard returns falsy input
unchanged (for strings, only the empty string). -/
def clean_question_text (s : List Char) : List Char :=
  if s.isEmpty then s
  else pyStrip (collapseWs (s.map (fun c => if c = '\n' then ' ' else c)))

end RemoveQuestionNewlines

namespace FixInstructionPunctuation

/-- Regex character class `[\.:!?]`. -/
def isPunctC (c : Char) : Bool := c = '.' || c = ':' || c = '!' || c = '?'

/-- Model of `re.sub(r'[\.:!?]+\s*$', '', l)`.  A match of that pattern at a
position requires the character there to be in `[\.:!?]` and everything after
the maximal punctuation run from that position to be whitespace up to the end
of the string; `re.sub` erases from the leftmost such position to the end. -/
def subPunctWsEnd : List Char → List Char
  | [] => []
  | c :: r =>
      if isPunctC c ∧ ((c :: r).dropWhile isPunctC).all isPySpace then []
      else c :: subPunctWsEnd r

/-- `fix_instruction_punctuation` from `scripts/fix_instruction_punctuation.py`
(lines 12-22): falsy (empty) input is returned unchanged; otherwise the
trailing punctuation-and-whitespace match is erased, the remainder is
stripped, and a single `':'` is appended. -/
def fix_instruction_punctuation (s : List Char) : List Char :=
  if s.isEmpty then s
  else pyStrip (subPunctWsEnd s) ++ [':']

end FixInstructionPunctuation

namespace Rx

/-- Regex tail `\s*(.+)$` applied to the remainder `r` of a newline-free
line: greedy `\s*` takes the leading whitespace run; if nothing is left for
`(.+)`, backtracking gives it the last whitespace character.  The match
fails only on an empty remainder. -/
def tailStar (r : List Char) : Option (List Char) :=
  if r.isEmpty then none
  else
    let g := r.dropWhile isPySpace
    some (if g.isEmpty then [r.getLastD ' '] else g)

/-- Regex tail `\s+(.+)$` applied to the remainder `r` of a newline-free
line: at least one whitespace character, then a non-empty group. -/
def tailPlus (r : List Char) : Option (List Char) :=
  match r with
  | [] => none
  | c :: r' =>
      if isPySpace c then
        let g := (c :: r').dropWhile isPySpace
        if g.isEmpty then
          if r'.isEmpty then none else some [r'.getLastD ' ']
        else some g
      else none

/-- `^(\d+)\.` : a non-empty maximal digit run followed by a period; returns
the parsed integer and the remainder after the period. -/
def matchNumDot (l : List Char) : Option (Nat × List Char) :=
  match l.takeWhile isDigitC, l.dropWhile isDigitC with
  | [], _ => none
  | ds, '.' :: r => some (natOfDigits ds, r)
  | _, _ => none

/-- `^(\d+)\.\s*(.+)$` : question-start line; returns index and body group. -/
def matchQuestionLine (l : List Char) : Option (Nat × List Char) :=
  (matchNumDot l).bind fun nr => (tailStar nr.2).map fun g => (nr.1, g)

/-- `^(\d+)\.\s*$` : bare question number line. -/
def matchNumOnly (l : List Char) : Option Nat :=
  (matchNumDot l).bind fun nr => if nr.2.all isPySpace then some nr.1 else none

/-- `re.match(r'^\d+\.', line)` as a boolean test. -/
def startsNumDot (l : List Char) : Bool := (matchNumDot l).isSome

/-- Regex class `[a-d]`. -/
def isLowerAD (c : Char) : Bool := c = 'a' || c = 'b' || c = 'c' || c = 'd'

/-- Regex class `[A-D]`. -/
def isUpperAD (c : Char) : Bool := c = 'A' || c = 'B' || c = 'C' || c = 'D'

/-- Regex class `[b-d]`. -/
def isLowerBD (c : Char) : Bool := c = 'b' || c = 'c' || c = 'd'

/-- Regex class `[B-D]`. -/
def isUpperBD (c : Char) : Bool := c = 'B' || c = 'C' || c = 'D'

/-- `^(<letter>)\.` for a letter class; returns letter and remainder. -/
def matchLetterDot (letters : Char → Bool) (l : List Char) :
    Option (Char × List Char) :=
  match l with
  | c :: '.' :: r => if letters c then some (c, r) else none
  | _ => none

/-- `^([a-d])\.\s*(.+)$` (or the uppercase variant). -/
def matchOptStar (letters : Char → Bool) (l : List Char) :
    Option (Char × List Char) :=
  (matchLetterDot letters l).bind fun cr => (tailStar cr.2).map fun g => (cr.1, g)

/-- `^([a-d])\.\s+(.+)$` (or the uppercase variant). -/
def matchOptPlus (letters : Char → Bool) (l : List Char) :
    Option (Char × List Char) :=
  (matchLetterDot letters l).bind fun cr => (tailPlus cr.2).map fun g => (cr.1, g)

/-- `re.match(r'^[a-d]\.\s+', line)`: option marker followed by whitespace. -/
def startsOptWs (letters : Char → Bool) (l : List Char) : Bool :=
  match matchLetterDot letters l with
  | some (_, c :: _) => isPySpace c
  | _ => false

/-- Consume a literal character sequence. -/
def dropLit (w : List Char) (l : List Char) : Option (List Char) :=
  if startsWithL w l then some (l.drop w.length) else none

/-- Consume `\s+` (greedy: the maximal leading whitespace run, at least one). -/
def dropWs1 (l : List Char) : Option (List Char) :=
  match l with
  | c :: r => if isPySpace c then some (r.dropWhile isPySpace) else none
  | [] => none

/-- Consume `^\d{4}\s+FJCL\s+State\s+` : exactly four digits (a fifth digit
makes `\s+` fail, so the maximal digit run must have length 4), then the
two literal words separated by whitespace. -/
def fjclStateRest (l : List Char) : Option (List Char) := do
  guard ((l.takeWhile isDigitC).length = 4)
  let r1 ← dropWs1 (l.drop 4)
  let r2 ← dropLit "FJCL".data r1
  let r3 ← dropWs1 r2
  let r4 ← dropLit "State".data r3
  dropWs1 r4

/-- `re.match(r'^\d{4}\s+FJCL\s+State\s+Latin\s+Forum', line)`. -/
def matchFJCLLatin (l : List Char) : Bool :=
  (do
    let r ← fjclStateRest l
    let r ← dropLit "Latin".data r
    let r ← dropWs1 r
    dropLit "Forum".data r).isSome

/-- `re.match(r'^\d{4}\s+FJCL\s+State\s+(Latin\s+)?Forum', line)`: the
optional group is tried first; on failure `Forum` must follow directly. -/
def matchFJCLOptLatin (l : List Char) : Bool :=
  (do
    let r ← fjclStateRest l
    (do
      let x ← dropLit "Latin".data r
      let x ← dropWs1 x
      dropLit "Forum".data x) <|> dropLit "Forum".data r).isSome

/-- `re.match(r'^\d{4}\s+FJCL\s+State\s+Forum.*-$', line)` on a newline-free
line: the prefix through `Forum`, then anything, with a final `'-'`. -/
def matchFJCLForumDashEnd (l : List Char) : Bool :=
  match (do let r ← fjclStateRest l; dropLit "Forum".data r) with
  | some rest =>
      match rest.getLast? with
      | some c => c = '-'
      | none => false
  | none => false

/-- `re.match(r'^\d{4}\s+FJCL\s+State\s+Forum.*\s+-\s*$', line)` on a
newline-free line: after `Forum`, reading from the end there is optional
whitespace, a `'-'`, and at least one whitespace character before it. -/
def matchFJCLForumSpDash (l : List Char) : Bool :=
  match (do let r ← fjclStateRest l; dropLit "Forum".data r) with
  | some rest =>
      match rest.reverse.dropWhile isPySpace with
      | '-' :: c :: _ => isPySpace c
      | _ => false
  | none => false

/-- `re.match(r'^N\.B\.', line)`. -/
def matchNB (l : List Char) : Bool := startsWithL "N.B.".data l

/-- Regex class `[IVX]` (uppercase only: these patterns carry no flag). -/
def isRomanC (c : Char) : Bool := c = 'I' || c = 'V' || c = 'X'

/-- `^([IVX]+)<sep>\s*(.+)$` with `sep` a period or colon; returns group 2. -/
def matchRoman (sep : Char) (l : List Char) : Option (List Char) :=
  match l.takeWhile isRomanC, l.dropWhile isRomanC with
  | [], _ => none
  | _ :: _, c :: r => if c = sep then tailStar r else none
  | _, [] => none

/-- Consume `^Part\s+` (literal word, then whitespace). -/
def partRest (l : List Char) : Option (List Char) := do
  let r ← dropLit "Part".data l
  dropWs1 r

/-- `^Part\s+(\d+)\)\s*(.+)$` ; returns group 2. -/
def matchPartParen (l : List Char) : Option (List Char) :=
  (partRest l).bind fun r =>
    match r.takeWhile isDigitC, r.dropWhile isDigitC with
    | [], _ => none
    | _ :: _, ')' :: r' => tailStar r'
    | _, _ => none

/-- `^Part\s+(\d+)\s*–\s*(.+)$` (en dash, optional spaces around it). -/
def matchPartEnDash (l : List Char) : Bool :=
  ((partRest l).bind fun r =>
    match r.takeWhile isDigitC, (r.dropWhile isDigitC).dropWhile isPySpace with
    | [], _ => none
    | _ :: _, '–' :: r' => tailStar r'
    | _, _ => none).isSome

/-- `^Part\s+(\d+)-\s*(.+)$` (ASCII hyphen immediately after the digits). -/
def matchPartHyphen (l : List Char) : Bool :=
  ((partRest l).bind fun r =>
    match r.takeWhile isDigitC, r.dropWhile isDigitC with
    | [], _ => none
    | _ :: _, '-' :: r' => tailStar r'
    | _, _ => none).isSome

/-- `^Part\s+\d+\s*[-–]\s*(.+)$` (either dash, optional spaces before it). -/
def matchPartDashClass (l : List Char) : Bool :=
  ((partRest l).bind fun r =>
    match r.takeWhile isDigitC, (r.dropWhile isDigitC).dropWhile isPySpace with
    | [], _ => none
    | _ :: _, c :: r' => if c = '-' ∨ c = '–' then tailStar r' else none
    | _, _ => none).isSome

/-- `^Part\s+([IVX]+):\s*(.+)$`. -/
def matchPartRomanColon (l : List Char) : Bool :=
  ((partRest l).bind fun r =>
    match r.takeWhile isRomanC, r.dropWhile isRomanC with
    | [], _ => none
    | _ :: _, ':' :: r' => tailStar r'
    | _, _ => none).isSome

/-- The instruction keyword vocabulary shared by the parsers. -/
def instrKeywords : List (List Char) :=
  ["choose".data, "match".data, "identify".data, "give".data, "complete".data,
   "select".data, "answer".data, "refer".data, "use".data, "items".data,
   "for questions".data]

/-- `any(word in line.lower() for word in [...])`. -/
def hasKeyword (l : List Char) : Bool :=
  instrKeywords.any fun kw => containsL kw (pyLower l)

end Rx

namespace AnswerKey

/-- One attempted match of `(\d+)\.<ws>([A-D])` at the current position.
`wsPlus` selects `\s+` (at least one whitespace character) versus `\s*`;
`ci` selects `re.IGNORECASE` on the letter class.  On success returns the
pair and the remainder of the input after the letter. -/
def tryKeyAt (wsPlus ci : Bool) (l : List Char) : Option ((Nat × Char) × List Char) :=
  match l.takeWhile isDigitC, l.dropWhile isDigitC with
  | [], _ => none
  | ds, '.' :: r =>
      if wsPlus ∧ ¬ (r.takeWhile isPySpace ≠ []) then none
      else
        match r.dropWhile isPySpace with
        | c :: rest =>
            if Rx.isUpperAD c ∨ (ci ∧ Rx.isLowerAD c) then
              some ((natOfDigits ds, toUpperA c), rest)
            else none
        | [] => none
  | _, _ => none

/-- `re.findall` for the answer-key pattern: scan left to right; at each
position try a match; on success emit the captured pair and resume after the
match, otherwise advance one character.  Structural recursion on a fuel
argument; a successful match consumes at least three characters, so fuel
equal to the input length (as supplied by `findallKey`) never runs out. -/
def findallKeyF (wsPlus ci : Bool) : Nat → List Char → List (Nat × Char)
  | 0, _ => []
  | Nat.succ f, l =>
      match l with
      | [] => []
      | c :: r =>
          match tryKeyAt wsPlus ci (c :: r) with
          | some (p, rest) => p :: findallKeyF wsPlus ci f rest
          | none => findallKeyF wsPlus ci f r

/-- `re.findall(r'(\d+)\.<ws>([A-D])', content)`. -/
def findallKey (wsPlus ci : Bool) (l : List Char) : List (Nat × Char) :=
  findallKeyF wsPlus ci l.length l

/-- Build the `answers` dict from the match list (`answers[num] = answer`). -/
def answersOf (ms : List (Nat × Char)) : List (Nat × Char) :=
  ms.foldl (fun m p => dictSetNat p.1 p.2 m) []

/-- Uppercase exactly the letters `a`-`d` in a blob (used to state that the
case-insensitive parser behaves as the case-sensitive one on the uppercased
blob). -/
def upAD (c : Char) : Char := if Rx.isLowerAD c then toUpperA c else c

end AnswerKey

namespace ParseAllFormattedTests

/-- `parse_answer_key` from `scripts/parse_all_formatted_tests.py`
(lines 131-147): `re.findall(r'(\d+)\.\s+([A-D])', content)` folded into a
dict keyed by the parsed integer.  (`scripts/fixed_parser.py` lines 303-319
use the identical pattern.) -/
def parse_answer_key (content : List Char) : List (Nat × Char) :=
  AnswerKey.answersOf (AnswerKey.findallKey true false content)

end ParseAllFormattedTests

namespace ConsolidateWithAnswers

/-- `parse_answer_key` from `consolidate_with_answers.py` (lines 10-34),
pattern `(\d+)\.\s*([A-D])` with no flags: whitespace optional, letters
uppercase only.  (The file-discovery part returns the empty dict when no
`*_key.txt` sibling exists; the content-to-dict core is modelled.) -/
def parse_answer_key (content : List Char) : List (Nat × Char) :=
  AnswerKey.answersOf (AnswerKey.findallKey false false content)

end ConsolidateWithAnswers

namespace SemanticParser

/-- `parse_answer_key` from `scripts/semantic_parser.py` (lines 12-33),
pattern `(\d+)\.\s*([A-D])` with `re.IGNORECASE` and `answer.upper()` on the
captured letter. -/
def parse_answer_key (content : List Char) : List (Nat × Char) :=
  AnswerKey.answersOf (AnswerKey.findallKey false true content)

end SemanticParser

namespace ParseAllFormattedTests

/-- One assembled question record of `parse_test_file` (the constant
`"type": "multiple_choice"` field is omitted; `correct_answer` is attached
later by `convert_test_to_json`, as the empty string when missing). -/
structure Question where
  question_number : Nat
  question : List Char
  options : List (Char × List Char)
  deriving DecidableEq

/-- Parser state of the `for line in lines` loop of `parse_test_file`. -/
structure St where
  questions : List Question
  current : Option Question
  last_instruction : Option (List Char)
  deriving DecidableEq

/-- Closing the previous record on a new question start (lines 36-38 and
65-67): it is appended only when it has at least one option. -/
def closePrev (st : St) : List Question :=
  match st.current with
  | some c => if 0 < c.options.length then st.questions ++ [c] else st.questions
  | none => st.questions

/-- The instruction test of lines 26-29: `line.startswith("Choose the") or
line.startswith("Identify the") or line.startswith("Complete the") or
(line.startswith("Items") and ":" in line)`. -/
def isInstrLine (l : List Char) : Bool :=
  startsWithL "Choose the".data l || startsWithL "Identify the".data l ||
  startsWithL "Complete the".data l ||
  (startsWithL "Items".data l && containsL ":".data l)

/-- One attempted match of `Derivatives I - States \d+ - \d+` at the current
position; on success returns the remainder after the match. -/
def tryDerivStates (l : List Char) : Option (List Char) := do
  let x ← Rx.dropLit "Derivatives I - States ".data l
  let ds := x.takeWhile isDigitC
  guard (¬ ds.isEmpty)
  let x2 ← Rx.dropLit " - ".data (x.drop ds.length)
  let ds2 := x2.takeWhile isDigitC
  if ds2.isEmpty then none else some (x2.drop ds2.length)

/-- `re.sub(r'Derivatives I - States \d+ - \d+', '', t)`: erase every
occurrence, found left to right.  Structural recursion on fuel; a match
consumes at least 27 characters, so fuel equal to the input length (as
supplied by `subDerivStates`) never runs out. -/
def subDerivStatesF : Nat → List Char → List Char
  | 0, l => l
  | Nat.succ f, l =>
      match l with
      | [] => []
      | c :: r =>
          match tryDerivStates (c :: r) with
          | some rest => subDerivStatesF f rest
          | none => c :: subDerivStatesF f r

/-- `re.sub(r'Derivatives I - States \d+ - \d+', '', t)`. -/
def subDerivStates (l : List Char) : List Char := subDerivStatesF l.length l

/-- `re.sub(r'Choose the.*$', '', t)` on a newline-free string: truncate at
the first occurrence of the literal `"Choose the"`. -/
def subChooseThe : List Char → List Char
  | [] => []
  | c :: r =>
      if startsWithL "Choose the".data (c :: r) then []
      else c :: subChooseThe r

/-- The `for i in range(1, len(parts), 2)` loop (lines 99-103): the split
pieces after the first, taken two at a time (captured letter, option text);
the trailing guard `i + 1 < len(parts)` drops an unpaired final letter.
`up` tells whether the letter is uppercased before use as a key (pre-2018
lowercase split does `.upper()`, the post-2018 split uses it as captured). -/
def optPairsLoop (up : Bool) : List (List Char) → List (Char × List Char) → List (Char × List Char)
  | letter :: text :: rest, opts =>
      optPairsLoop up rest
        (dictSet (if up then toUpperA (letter.headD ' ') else letter.headD ' ')
          (pyStrip text) opts)
  | _, opts => opts

/-- One attempted match of `\s+([b-d])\.\s+` (or the `[B-D]` variant) at the
current position: a whitespace run, a letter, a period, a whitespace run; on
success returns the captured letter and the remainder after the match. -/
def trySplitMatch (letters : Char → Bool) (l : List Char) : Option (Char × List Char) :=
  match l with
  | [] => none
  | c :: r =>
      if isPySpace c then
        match r.dropWhile isPySpace with
        | d :: '.' :: r2 =>
            if letters d then
              match r2 with
              | e :: r3 => if isPySpace e then some (d, r3.dropWhile isPySpace) else none
              | [] => none
            else none
        | _ => none
      else none

/-- `re.search(r'\s+[b-d]\.\s+', l)` (or the uppercase variant). -/
def searchMidOpt (letters : Char → Bool) : List Char → Bool
  | [] => false
  | c :: r => (trySplitMatch letters (c :: r)).isSome || searchMidOpt letters r

/-- Scanner for `re.split(r'\s+([b-d])\.\s+', l)`: `acc` holds the current
piece (reversed); at each position a match is attempted, and on success the
piece, the captured letter and the pieces of the remainder are emitted.
Structural recursion on fuel; a match consumes at least four characters, so
fuel equal to the input length (as supplied by `splitMidOpt`) never runs
out. -/
def splitMidOptGo (letters : Char → Bool) : Nat → List Char → List Char → List (List Char)
  | 0, acc, l => [acc.reverse ++ l]
  | Nat.succ f, acc, l =>
      match l with
      | [] => [acc.reverse]
      | c :: r =>
          match trySplitMatch letters (c :: r) with
          | some (d, rest) => acc.reverse :: [d] :: splitMidOptGo letters f [] rest
          | none => splitMidOptGo letters f (c :: acc) r

/-- `re.split(r'\s+([b-d])\.\s+', l)` (or the uppercase variant): pieces of
the input interleaved with the single-letter captured groups. -/
def splitMidOpt (letters : Char → Bool) (l : List Char) : List (List Char) :=
  splitMidOptGo letters l.length [] l

/-- The lowercase multi/single option branch of `parse_test_file`
(lines 85-111), entered when a question is open and the line matches
`^[a-d]\.\s+`.  The search and split operate on the whole line; the first
split piece has a literal `'a. '` stripped from its front; remaining
(letter, text) pairs are upsert into the options dict. -/
def lowerOptionsUpdate (line : List Char) (opts : List (Char × List Char)) :
    List (Char × List Char) :=
  if searchMidOpt Rx.isLowerBD line then
    let parts := splitMidOpt Rx.isLowerBD line
    if 3 ≤ parts.length then
      let first0 := pyStrip (parts.headD [])
      let first :=
        if startsWithL "a. ".data first0 then pyStrip (first0.drop 3) else first0
      optPairsLoop true (parts.drop 1) (dictSet 'A' first opts)
    else opts
  else
    match Rx.matchOptPlus Rx.isLowerAD line with
    | some (letter, text) => dictSet (toUpperA letter) (pyStrip text) opts
    | none => opts

/-- One iteration of the `for line in lines` loop of `parse_test_file`
(`scripts/parse_all_formatted_tests.py`, lines 20-123). -/
def step (st : St) (rawLine : List Char) : St :=
  let line := pyStrip rawLine
  if line.isEmpty then st
  else if isInstrLine line then { st with last_instruction := some line }
  else
    match Rx.matchQuestionLine line with
    | some (n, g2) =>
        let question_text := pyStrip (subDerivStates (pyStrip g2))
        let base_q : List Char :=
          match st.last_instruction with
          | some li => if question_text.isEmpty then li else li ++ ' ' :: question_text
          | none => question_text
        { questions := closePrev st,
          current := some { question_number := n, question := base_q, options := [] },
          last_instruction := st.last_instruction }
    | none =>
        match Rx.matchNumOnly line with
        | some n =>
            let base_q : List Char :=
              match st.last_instruction with
              | some li => li
              | none => []
            { questions := closePrev st,
              current := some { question_number := n, question := base_q, options := [] },
              last_instruction := st.last_instruction }
        | none =>
            match st.current with
            | some c =>
                if Rx.startsOptWs Rx.isLowerAD line then
                  { st with current := some { c with options := lowerOptionsUpdate line c.options } }
                else
                  match Rx.matchOptPlus Rx.isUpperAD line with
                  | some (letter, text) =>
                      let option_text := pyStrip (subChooseThe (pyStrip text))
                      { st with current := some { c with options := dictSet letter option_text c.options } }
                  | none => st
            | none => st

/-- `parse_test_file` (lines 11-129) on the text content of the file: the
line loop over the newline-split content, then the final unconditional
`if current_question: questions.append(current_question)`. -/
def parse_test_file (content : List Char) : List Question :=
  let st := (content.splitOn '\n').foldl step ⟨[], none, none⟩
  st.questions ++ st.current.toList

/-- The answer-matching loop of `convert_test_to_json` (lines 180-187):
every record is kept; `correct_answer` is the key-map letter when the index
is present, and the empty string otherwise. -/
def matchAnswers (answers : List (Nat × Char)) (qs : List Question) :
    List (Question × List Char) :=
  qs.map fun q =>
    (q, match answers.lookup q.question_number with
        | some a => [a]
        | none => [])

end ParseAllFormattedTests

namespace FixedParser

/-- One assembled question record of `parse_test_file_fixed`
(`scripts/fixed_parser.py`; the constant `"type"` field is omitted). -/
structure Question where
  question_number : Nat
  question : List Char
  options : List (Char × List Char)
  «section» : Option (List Char)
  section_context : Option (List Char)
  instruction : Option (List Char)
  deriving DecidableEq

/-- Parser state of the line loop of `parse_test_file_fixed`.  (The
`question_buffer` variable of the source is initialised and never used.) -/
structure St where
  questions : List Question
  current : Option Question
  current_section : Option (List Char)
  section_context : Option (List Char)
  current_instruction : Option (List Char)
  deriving DecidableEq

/-- Closing the previous record on a new question start in the pre-2018
branch (lines 110-112): appended only with at least four options. -/
def closePrevPre (st : St) : List Question :=
  match st.current with
  | some c => if 4 ≤ c.options.length then st.questions ++ [c] else st.questions
  | none => st.questions

/-- Closing the previous record on a new question start in the post-2018
branch (lines 218-220): appended once it has at least one option. -/
def closePrevPost (st : St) : List Question :=
  match st.current with
  | some c => if 0 < c.options.length then st.questions ++ [c] else st.questions
  | none => st.questions

/-- `re.sub(r'^For\s+\d+-\d+\s+', '', t)` (lines 140/243; no flags). -/
def forSub1 (l : List Char) : List Char :=
  match
    (do
      let r ← Rx.dropLit "For".data l
      let r ← Rx.dropWs1 r
      let ds := r.takeWhile isDigitC
      guard (¬ ds.isEmpty)
      match r.drop ds.length with
      | '-' :: r2 =>
          let ds2 := r2.takeWhile isDigitC
          if ds2.isEmpty then none else Rx.dropWs1 (r2.drop ds2.length)
      | _ => none) with
  | some rest => rest
  | none => l

/-- `re.sub(r'^For\s+questions\s+\d+-\d+\s+', '', t)` (lines 141/244). -/
def forSub2 (l : List Char) : List Char :=
  match
    (do
      let r ← Rx.dropLit "For".data l
      let r ← Rx.dropWs1 r
      let r ← Rx.dropLit "questions".data r
      let r ← Rx.dropWs1 r
      let ds := r.takeWhile isDigitC
      guard (¬ ds.isEmpty)
      match r.drop ds.length with
      | '-' :: r2 =>
          let ds2 := r2.takeWhile isDigitC
          if ds2.isEmpty then none else Rx.dropWs1 (r2.drop ds2.length)
      | _ => none) with
  | some rest => rest
  | none => l

/-- `re.sub(r'^For\s+questions\s+\d+-\d+\s+please\s+', '', t)`
(lines 142/245). -/
def forSub3 (l : List Char) : List Char :=
  match
    (do
      let r ← Rx.dropLit "For".data l
      let r ← Rx.dropWs1 r
      let r ← Rx.dropLit "questions".data r
      let r ← Rx.dropWs1 r
      let ds := r.takeWhile isDigitC
      guard (¬ ds.isEmpty)
      match r.drop ds.length with
      | '-' :: r2 =>
          let ds2 := r2.takeWhile isDigitC
          guard (¬ ds2.isEmpty)
          let r3 ← Rx.dropWs1 (r2.drop ds2.length)
          let r3 ← Rx.dropLit "please".data r3
          Rx.dropWs1 r3
      | _ => none) with
  | some rest => rest
  | none => l

/-- The `Part x)` instruction extraction (lines 137-147 and 240-250):
`group(2).strip()`, the three `For ...` range subs, and a final strip. -/
def partInstructionText (g2 : List Char) : List Char :=
  pyStrip (forSub3 (forSub2 (forSub1 (pyStrip g2))))

/-- The pre-2018 instruction test (lines 91-101). -/
def preInstrCheck (l : List Char) : Bool :=
  !Rx.matchNB l && !Rx.startsNumDot l &&
  !(Rx.matchOptStar Rx.isLowerAD l).isSome &&
  !Rx.matchFJCLOptLatin l && !Rx.matchFJCLForumDashEnd l &&
  !Rx.matchFJCLForumSpDash l && !Rx.matchPartDashClass l &&
  !(Rx.matchPartParen l).isSome &&
  endsWithDotColon l && decide (2 < (pyWords l).length) && Rx.hasKeyword l

/-- The post-2018 instruction test (lines 200-209; it does not exclude
`Part x)` lines). -/
def postInstrCheck (l : List Char) : Bool :=
  !Rx.matchNB l && !Rx.startsNumDot l &&
  !(Rx.matchOptStar Rx.isUpperAD l).isSome &&
  !Rx.matchFJCLOptLatin l && !Rx.matchFJCLForumDashEnd l &&
  !Rx.matchFJCLForumSpDash l && !Rx.matchPartDashClass l &&
  endsWithDotColon l && decide (2 < (pyWords l).length) && Rx.hasKeyword l

/-- The pre-2018 continuation test (lines 152-163; the `current_question`
conjunct is handled at the use site). -/
def preContCheck (l : List Char) : Bool :=
  !(Rx.matchOptStar Rx.isLowerAD l).isSome && !Rx.startsNumDot l &&
  !Rx.matchFJCLLatin l && !Rx.matchPartDashClass l && !Rx.matchPartHyphen l &&
  !Rx.matchPartRomanColon l && !(Rx.matchRoman '.' l).isSome &&
  !(Rx.matchPartParen l).isSome && !Rx.matchNB l &&
  !l.isEmpty && !Rx.hasKeyword l

/-- The post-2018 continuation test (lines 255-266). -/
def postContCheck (l : List Char) : Bool :=
  !(Rx.matchOptStar Rx.isUpperAD l).isSome && !Rx.startsNumDot l &&
  !Rx.matchFJCLLatin l && !Rx.matchPartDashClass l && !Rx.matchPartHyphen l &&
  !Rx.matchPartRomanColon l && !(Rx.matchRoman '.' l).isSome &&
  !(Rx.matchPartParen l).isSome && !Rx.matchNB l &&
  !l.isEmpty && !Rx.hasKeyword l

/-- The pre-2018 option branch (lines 168-193): the option letter is
uppercased; if the text after the marker contains a further `\s+[b-d]\.\s+`
marker it is split and all pieces are stored, otherwise the single option
text is stored. -/
def preOptionsUpdate (letter : Char) (optionText : List Char)
    (opts : List (Char × List Char)) : List (Char × List Char) :=
  if ParseAllFormattedTests.searchMidOpt Rx.isLowerBD optionText then
    let parts := ParseAllFormattedTests.splitMidOpt Rx.isLowerBD optionText
    if 3 ≤ parts.length then
      ParseAllFormattedTests.optPairsLoop true (parts.drop 1)
        (dictSet (toUpperA letter) (pyStrip (parts.headD [])) opts)
    else opts
  else dictSet (toUpperA letter) optionText opts

/-- The post-2018 option branch (lines 271-295): the first split piece is
stored under the hard-coded key `"A"`, the remaining captured letters are
used as-is. -/
def postOptionsUpdate (letter : Char) (optionText : List Char)
    (opts : List (Char × List Char)) : List (Char × List Char) :=
  if ParseAllFormattedTests.searchMidOpt Rx.isUpperBD optionText then
    let parts := ParseAllFormattedTests.splitMidOpt Rx.isUpperBD optionText
    if 3 ≤ parts.length then
      ParseAllFormattedTests.optPairsLoop false (parts.drop 1)
        (dictSet 'A' (pyStrip (parts.headD [])) opts)
    else opts
  else dictSet letter optionText opts

/-- The pre-2018 branch of the line loop (lines 43-193), applied to a
stripped, non-empty, non-FJCL-header line. -/
def preLine (st : St) (line : List Char) : St :=
  if (Rx.matchRoman ':' line).isSome then
    { st with current_section := some line, section_context := some line }
  else
    match Rx.matchRoman '.' line with
    | some g2 =>
        let it := pyStrip g2
        { st with current_section := some it, section_context := some it }
    | none =>
        match Rx.matchPartParen line with
        | some g2 =>
            if Rx.hasKeyword line then
              let it := pyStrip g2
              { st with current_section := some it, section_context := some it }
            else st
        | none =>
            if Rx.matchPartEnDash line then st
            else if Rx.matchPartHyphen line then st
            else if Rx.matchPartRomanColon line then st
            else if preInstrCheck line then
              { st with current_instruction := some line }
            else
              match Rx.matchQuestionLine line with
              | some (n, g2) =>
                  let qt := pyStrip g2
                  let full :=
                    match st.section_context with
                    | some ctx =>
                        if ctx.isEmpty then qt else pyStrip (ctx ++ ' ' :: qt)
                    | none => qt
                  let nq : Question :=
                    { question_number := n, question := full, options := [],
                      «section» := st.current_section,
                      section_context := st.section_context,
                      instruction := st.current_instruction }
                  { questions := closePrevPre st,
                    current := some nq,
                    current_section := st.current_section,
                    section_context := st.section_context,
                    current_instruction := st.current_instruction }
              | none =>
                  match st.current with
                  | some c =>
                      if preContCheck line then
                        let c' := { c with question := c.question ++ ' ' :: pyStrip line }
                        { st with current := some c' }
                      else
                        match Rx.matchOptStar Rx.isLowerAD line with
                        | some (letter, g2) =>
                            let c' := { c with options := preOptionsUpdate letter (pyStrip g2) c.options }
                            { st with current := some c' }
                        | none => st
                  | none => st

/-- The post-2018 branch of the line loop (lines 196-295), applied to a
stripped, non-empty, non-FJCL-header line. -/
def postLine (st : St) (line : List Char) : St :=
  if postInstrCheck line then { st with current_instruction := some line }
  else
    match Rx.matchQuestionLine line with
    | some (n, g2) =>
        let nq : Question :=
          { question_number := n, question := pyStrip g2, options := [],
            «section» := none, section_context := none,
            instruction := st.current_instruction }
        { questions := closePrevPost st,
          current := some nq,
          current_section := st.current_section,
          section_context := st.section_context,
          current_instruction := st.current_instruction }
    | none =>
        match Rx.matchPartParen line with
        | some g2 =>
            { st with current_instruction := some (partInstructionText g2) }
        | none =>
            match st.current with
            | some c =>
                if postContCheck line then
                  let c' := { c with question := c.question ++ ' ' :: pyStrip line }
                  { st with current := some c' }
                else
                  match Rx.matchOptStar Rx.isUpperAD line with
                  | some (letter, g2) =>
                      let c' := { c with options := postOptionsUpdate letter (pyStrip g2) c.options }
                      { st with current := some c' }
                  | none => st
            | none => st

/-- One iteration of the line loop of `parse_test_file_fixed` (lines 33-295):
strip, skip empty lines and `^\d{4}\s+FJCL\s+State\s+Latin\s+Forum` header
lines, then dispatch on the format era. -/
def step (isPre2018 : Bool) (st : St) (rawLine : List Char) : St :=
  let line := pyStrip rawLine
  if line.isEmpty then st
  else if Rx.matchFJCLLatin line then st
  else if isPre2018 then preLine st line
  else postLine st line

/-- `parse_test_file_fixed` (lines 11-301) on the newline-split file content.
In the source `is_pre_2018` is derived from a `state_(\d{4})` component of
the file path (`year <= 2017`); it is taken here as a parameter.  The final
record is appended when it has at least one option (lines 297-299). -/
def parse_test_file_fixed (isPre2018 : Bool) (content : List Char) : List Question :=
  let st := (content.splitOn '\n').foldl (step isPre2018) ⟨[], none, none, none, none⟩
  match st.current with
  | some c => if 0 < c.options.length then st.questions ++ [c] else st.questions
  | none => st.questions

end FixedParser

namespace CleanInstructionHeaders

open FixInstructionPunctuation RemoveQuestionNewlines

/-- The `useless_headers` list of `clean_instruction_headers.py`
(lines 20-104), in source order. -/
def useless_headers : List (List Char) :=
  ["FJCL State Latin Forum – Derivatives 1 -".data,
   "FJCL State Latin Forum – Derivatives I -".data,
   "FJCL State Latin Forum – Derivatives II -".data,
   "FJCL State Latin Forum – Derivatives -".data,
   "FJCL State Latin Forum – Mythology -".data,
   "FJCL State Latin Forum – Vocabulary 1 -".data,
   "FJCL State Latin Forum – Vocabulary I -".data,
   "FJCL State Latin Forum – Vocabulary II -".data,
   "FJCL State Latin Forum – Vocabulary -".data,
   "FJCL State Latin Forum – History -".data,
   "FJCL State Latin Forum – Mottoes -".data,
   "FJCL State Latin Forum – Phrases -".data,
   "FJCL State Latin Forum – Abbreviations -".data,
   "FJCL State Latin Forum – Quotations -".data,
   "FJCL State Latin Forum – Classical Art -".data,
   "FJCL State Latin Forum – Classical Geography -".data,
   "FJCL State Latin Forum – History of the Empire -".data,
   "FJCL State Latin Forum – History of the Monarchy and Republic -".data,
   "FJCL State Latin Forum – History of the Monarchy & Republic -".data,
   "FJCL State Latin Forum – Mottoes, Abbreviations, and Quotations -".data,
   "FJCL State Latin Forum – Mottoes, Abbreviations, & Quotations -".data,
   "2015 FJCL State Latin Forum".data,
   "2014 FJCL State Latin Forum".data,
   "2013 FJCL State Latin Forum".data,
   "2012 FJCL State Latin Forum".data,
   "2011 FJCL State Latin Forum".data,
   "2010 FJCL State Latin Forum".data,
   "2009 FJCL State Latin Forum".data,
   "2019 FJCL State Forum".data,
   "2018 FJCL State Forum".data,
   "2017 FJCL State Forum".data,
   "2016 FJCL State Forum".data,
   "2015 FJCL State Forum".data,
   "2014 FJCL State Forum".data,
   "2013 FJCL State Forum".data,
   "2012 FJCL State Forum".data,
   "2011 FJCL State Forum".data,
   "2010 FJCL State Forum".data,
   "2009 FJCL State Forum".data,
   "FJCL State Latin Forum".data,
   "FJCL State Forum".data,
   "Derivatives".data,
   "Mythology".data,
   "Vocabulary".data,
   "History".data,
   "Classical Art".data,
   "Classical Geography".data,
   "Mottoes".data,
   "Abbreviations".data,
   "Quotations".data,
   "Phrases".data,
   "Derivatives I".data,
   "Derivatives II".data,
   "Vocabulary I".data,
   "Vocabulary II".data,
   "History of the Empire".data,
   "History of the Monarchy and Republic".data,
   "History of the Monarchy & Republic".data,
   "Mottoes, Abbreviations, and Quotations".data,
   "Mottoes, Abbreviations, & Quotations".data,
   "Phrases, Mottoes, Abbreviations, and Quotations".data,
   "I. Mottoes".data,
   "II. Phrases".data,
   "III. Abbreviations".data,
   "IV. Quotations".data,
   "Part I: Phrases".data,
   "Part II: Mottoes".data,
   "Part III: Abbreviations".data,
   "Part IV: Quotations".data,
   "N.B. There are no macra on this test.".data]

/-- One pass of the header-removal loop body (lines 107-112): if the
instruction starts (case-insensitively) with the header, slice it off,
strip, then drop any leading newline characters (a no-op after `strip()`,
kept for fidelity). -/
def stripHeader (instruction header : List Char) : List Char :=
  if startsWithL (pyLower header) (pyLower instruction) then
    (pyStrip (instruction.drop header.length)).dropWhile (· = '\n')
  else instruction

/-- The `for header in useless_headers` loop: each header is tried once, in
list order, against the current value of the instruction. -/
def removeHeaders (instruction : List Char) : List Char :=
  useless_headers.foldl stripHeader instruction

/-- Case-insensitive literal consume (a literal inside a regex compiled with
`re.IGNORECASE`). -/
def dropLitCI (w l : List Char) : Option (List Char) :=
  if startsWithL (pyLower w) (pyLower l) then some (l.drop w.length) else none

/-- `re.sub(r'^For\s+\d+-\d+\s+', '', t, flags=re.IGNORECASE)`. -/
def forSub1CI (l : List Char) : List Char :=
  match
    (do
      let r ← dropLitCI "For".data l
      let r ← Rx.dropWs1 r
      let ds := r.takeWhile isDigitC
      guard (¬ ds.isEmpty)
      match r.drop ds.length with
      | '-' :: r2 =>
          let ds2 := r2.takeWhile isDigitC
          if ds2.isEmpty then none else Rx.dropWs1 (r2.drop ds2.length)
      | _ => none) with
  | some rest => rest
  | none => l

/-- `re.sub(r'^For\s+questions\s+\d+-\d+\s+', '', t, flags=re.IGNORECASE)`. -/
def forSub2CI (l : List Char) : List Char :=
  match
    (do
      let r ← dropLitCI "For".data l
      let r ← Rx.dropWs1 r
      let r ← dropLitCI "questions".data r
      let r ← Rx.dropWs1 r
      let ds := r.takeWhile isDigitC
      guard (¬ ds.isEmpty)
      match r.drop ds.length with
      | '-' :: r2 =>
          let ds2 := r2.takeWhile isDigitC
          if ds2.isEmpty then none else Rx.dropWs1 (r2.drop ds2.length)
      | _ => none) with
  | some rest => rest
  | none => l

/-- `re.sub(r'^For\s+questions\s+\d+-\d+\s+please\s+', '', t, flags=re.IGNORECASE)`. -/
def forSub3CI (l : List Char) : List Char :=
  match
    (do
      let r ← dropLitCI "For".data l
      let r ← Rx.dropWs1 r
      let r ← dropLitCI "questions".data r
      let r ← Rx.dropWs1 r
      let ds := r.takeWhile isDigitC
      guard (¬ ds.isEmpty)
      match r.drop ds.length with
      | '-' :: r2 =>
          let ds2 := r2.takeWhile isDigitC
          guard (¬ ds2.isEmpty)
          let r3 ← Rx.dropWs1 (r2.drop ds2.length)
          let r3 ← dropLitCI "please".data r3
          Rx.dropWs1 r3
      | _ => none) with
  | some rest => rest
  | none => l

/-- Regex class `[IVX]` under `re.IGNORECASE`. -/
def isRomanCI (c : Char) : Bool :=
  c = 'I' || c = 'V' || c = 'X' || c = 'i' || c = 'v' || c = 'x'

/-- `re.sub(r'^[IVX]+[\.:]\s*', '', t, flags=re.IGNORECASE)`: delete a
leading roman-numeral run followed by a period or colon and whitespace. -/
def romanHeadSub (l : List Char) : List Char :=
  let rom := l.takeWhile isRomanCI
  if rom.isEmpty then l
  else
    match l.drop rom.length with
    | c :: r => if c = '.' ∨ c = ':' then r.dropWhile isPySpace else l
    | [] => l

/-- `re.sub(r'^Part\s+[IVX]+[\.:]\s*', '', t, flags=re.IGNORECASE)`. -/
def partRomanHeadSub (l : List Char) : List Char :=
  match
    (do
      let r ← dropLitCI "Part".data l
      let r ← Rx.dropWs1 r
      let rom := r.takeWhile isRomanCI
      guard (¬ rom.isEmpty)
      match r.drop rom.length with
      | c :: r2 => if c = '.' ∨ c = ':' then some (r2.dropWhile isPySpace) else none
      | [] => none) with
  | some rest => rest
  | none => l

/-- `re.sub(r'^Part\s+\d+[\.:]\s*', '', t, flags=re.IGNORECASE)`. -/
def partNumPunctSub (l : List Char) : List Char :=
  match
    (do
      let r ← dropLitCI "Part".data l
      let r ← Rx.dropWs1 r
      let ds := r.takeWhile isDigitC
      guard (¬ ds.isEmpty)
      match r.drop ds.length with
      | c :: r2 => if c = '.' ∨ c = ':' then some (r2.dropWhile isPySpace) else none
      | [] => none) with
  | some rest => rest
  | none => l

/-- `re.sub(r'^Part\s+\d+\)\s*', '', t, flags=re.IGNORECASE)`. -/
def partNumParenSub (l : List Char) : List Char :=
  match
    (do
      let r ← dropLitCI "Part".data l
      let r ← Rx.dropWs1 r
      let ds := r.takeWhile isDigitC
      guard (¬ ds.isEmpty)
      match r.drop ds.length with
      | ')' :: r2 => some (r2.dropWhile isPySpace)
      | _ => none) with
  | some rest => rest
  | none => l

/-- One sequence of the seven heading subs, each followed by `strip()`
(lines 115-125, repeated verbatim as the loop body of lines 130-145). -/
def headerSubsBody (l : List Char) : List Char :=
  let l := pyStrip (forSub1CI l)
  let l := pyStrip (forSub2CI l)
  let l := pyStrip (forSub3CI l)
  let l := pyStrip (romanHeadSub l)
  let l := pyStrip (partRomanHeadSub l)
  let l := pyStrip (partNumPunctSub l)
  pyStrip (partNumParenSub l)

/-- The `for _ in range(max_iterations)` loop (lines 129-145): apply the
body up to five times, stopping as soon as a pass makes no change. -/
def headerSubsLoop : Nat → List Char → List Char
  | 0, l => l
  | Nat.succ k, l =>
      let l' := headerSubsBody l
      if l' = l then l else headerSubsLoop k l'

/-- `instruction[0].upper() + instruction[1:]` (lines 148-149). -/
def capFirst : List Char → List Char
  | [] => []
  | c :: r => toUpperA c :: r

/-- `clean_instruction` from `clean_instruction_headers.py` (lines 14-162):
header-prefix removal, heading subs (once, then the bounded loop),
capitalisation, trailing-punctuation normalisation to a single colon,
newline replacement and whitespace collapsing. -/
def clean_instruction (instruction : List Char) : List Char :=
  if instruction.isEmpty then instruction
  else
    let l := removeHeaders instruction
    let l := headerSubsBody l
    let l := headerSubsLoop 5 l
    let l := capFirst l
    let t := pyStrip (subPunctWsEnd l)
    let l := if t.isEmpty then t else t ++ [':']
    pyStrip (collapseWs (l.map fun c => if c = '\n' then ' ' else c))

end CleanInstructionHeaders

namespace ConsolidateWithAnswers

/-- A question dict as read back from a per-test `questions.json`, restricted
to the fields the consolidation loop of `consolidate_jcl_data` reads or
writes.  `correct_answer` may already carry a value from an earlier pass;
fields the loop adds are optional and start absent. -/
structure Question where
  question_number : Nat
  correct_answer : Option Char
  «section» : Option (List Char)
  source_year : Option (List Char)
  source_subject : Option (List Char)
  format_era : Option (List Char)
  original_question_number : Option Nat
  has_section : Option Bool
  deriving DecidableEq

/-- The per-question body of the consolidation loop
(`consolidate_with_answers.py`, lines 109-129): provenance fields are set,
`original_question_number` is copied (the field is always present in this
typed model), `correct_answer` is set from the freshly parsed answer key —
to the mapped letter when the index is present and to `None` otherwise —
and `has_section` is derived.  -/
def annotate_question (year subject : List Char) (is_pre_2018 : Bool)
    (answer_key : List (Nat × Char)) (q : Question) : Question :=
  { q with
    source_year := some year,
    source_subject := some subject,
    format_era := some (if is_pre_2018 then "pre_2018".data else "post_2018".data),
    original_question_number := some q.question_number,
    correct_answer := answer_key.lookup q.question_number,
    has_section := some (is_pre_2018 && truthy q.«section») }

/-- The consolidation loop over one file's question list, also accumulating
the `questions_with_answers` statistic (incremented exactly in the
`question_number in answer_key` branch, line 121). -/
def annotate_all (year subject : List Char) (is_pre_2018 : Bool)
    (answer_key : List (Nat × Char)) (qs : List Question) :
    List Question × Nat :=
  qs.foldl
    (fun acc q =>
      (acc.1 ++ [annotate_question year subject is_pre_2018 answer_key q],
       acc.2 + if (answer_key.lookup q.question_number).isSome then 1 else 0))
    ([], 0)

end ConsolidateWithAnswers

/-! ## Helper lemmas -/

namespace RemoveQuestionNewlines

/-- Every whitespace character in the collapsed output is a plain space. -/
theorem collapseWsGo_ws_eq_space :
    ∀ (l : List Char) (b : Bool) (c : Char), c ∈ collapseWsGo b l →
      isPySpace c = true → c = ' ' := by
  intro l
  induction l with
  | nil => intro b c hc; simp [collapseWsGo] at hc
  | cons a r ih =>
      intro b c hc hw
      by_cases ha : isPySpace a = true
      · simp only [collapseWsGo, ha, if_pos] at hc
        rcases b with _ | _
        · simp only [Bool.false_eq_true, if_false] at hc
          rcases List.mem_append.1 hc with h1 | h2
          · simpa using h1
          · exact ih true c h2 hw
        · simp only [if_true, List.nil_append] at hc
          exact ih true c hc hw
      · simp only [collapseWsGo, ha, if_neg, Bool.not_eq_true, List.mem_cons] at hc
        rcases hc with rfl | h2
        · exact absurd hw (by simpa using ha)
        · exact ih false c h2 hw

/-- The head of the collapsed output in "previous was whitespace" mode is
never whitespace. -/
theorem collapseWsGo_true_head :
    ∀ (l : List Char) (a : Char), (collapseWsGo true l).head? = some a →
      isPySpace a = false := by
  intro l
  induction l with
  | nil => intro a ha; simp [collapseWsGo] at ha
  | cons c r ih =>
      intro a ha
      by_cases hc : isPySpace c = true
      · simp only [collapseWsGo, hc, if_pos, if_true, List.nil_append] at ha
        exact ih a ha
      · simp only [collapseWsGo, hc, if_neg, Bool.not_eq_true, List.head?_cons,
          Option.some.injEq] at ha
        subst ha
        simpa using hc

/-- No two adjacent whitespace characters survive the collapse. -/
theorem collapseWsGo_chain :
    ∀ (l : List Char) (b : Bool),
      List.Chain' (fun a b => ¬(isPySpace a = true ∧ isPySpace b = true))
        (collapseWsGo b l) := by
  intro l
  induction l with
  | nil => intro b; simp [collapseWsGo]
  | cons c r ih =>
      intro b
      by_cases hc : isPySpace c = true
      · rcases b with _ | _
        · simp only [collapseWsGo, hc, if_pos, Bool.false_eq_true, if_false,
            List.cons_append, List.nil_append]
          refine List.chain'_cons'.2 ⟨?_, ih true⟩
          intro y hy
          intro hcontra
          have := collapseWsGo_true_head r y hy
          rw [this] at hcontra
          exact absurd hcontra.2 (by simp)
        · simpa [collapseWsGo, hc] using ih true
      · simp only [collapseWsGo, hc, if_neg, Bool.not_eq_true]
        refine List.chain'_cons'.2 ⟨?_, ih false⟩
        intro y _hy hcontra
        exact absurd hcontra.1 (by simpa using hc)

/-- `pyStrip` of a list is a sublist of it. -/
theorem pyStrip_sublist (l : List Char) : List.Sublist (pyStrip l) l := by
  have h1 : List.Sublist ((l.dropWhile isPySpace).reverse.dropWhile isPySpace)
      (l.dropWhile isPySpace).reverse := List.dropWhile_sublist _
  have h2 := List.reverse_sublist.2 h1
  simp only [List.reverse_reverse] at h2
  exact List.Sublist.trans h2 (List.dropWhile_sublist _)

/-- `pyStrip` preserves chains of a symmetric relation (it keeps a
contiguous infix of the input). -/
theorem pyStrip_chain' {R : Char → Char → Prop}
    (hsymm : ∀ a b, R a b → R b a) {l : List Char}
    (h : List.Chain' R l) : List.Chain' R (pyStrip l) := by
  have key : ∀ (m : List Char), List.Chain' R m → List.Chain' R m.reverse := by
    intro m hm
    exact List.chain'_reverse.2 (hm.imp fun a b hab => hsymm a b hab)
  exact key _ (((key _ (h.suffix (List.dropWhile_suffix _))).suffix
    (List.dropWhile_suffix _)))

end RemoveQuestionNewlines

/-! ## C9 -/

/-- C9: for every question-body string, the output of `clean_question_text`
contains no newline character and contains no two consecutive whitespace
characters. -/
theorem C9_clean_question_text_flattens (s : List Char) :
    '\n' ∉ RemoveQuestionNewlines.clean_question_text s ∧
      List.Chain' (fun a b => ¬(isPySpace a = true ∧ isPySpace b = true))
        (RemoveQuestionNewlines.clean_question_text s) := by
  unfold RemoveQuestionNewlines.clean_question_text
  by_cases hs : s.isEmpty
  · rw [if_pos hs]
    rcases s with _ | ⟨c, r⟩
    · exact ⟨by simp, by simp⟩
    · simp at hs
  · rw [if_neg hs]
    constructor
    · intro hmem
      have hmem2 : '\n' ∈ RemoveQuestionNewlines.collapseWs
          (s.map fun c => if c = '\n' then ' ' else c) :=
        (RemoveQuestionNewlines.pyStrip_sublist _).mem hmem
      have := RemoveQuestionNewlines.collapseWsGo_ws_eq_space _ false '\n' hmem2 (by decide)
      exact absurd this (by decide)
    · exact RemoveQuestionNewlines.pyStrip_chain'
        (fun a b hab h => hab ⟨h.2, h.1⟩)
        (RemoveQuestionNewlines.collapseWsGo_chain _ false)

namespace FixInstructionPunctuation

/-- The punctuation class and the whitespace class are disjoint. -/
theorem punct_not_ws {c : Char} (h : isPunctC c = true) : isPySpace c = false := by
  have h4 : c = '.' ∨ c = ':' ∨ c = '!' ∨ c = '?' := by
    simpa [isPunctC, or_assoc] using h
  rcases h4 with rfl | rfl | rfl | rfl <;> decide

/-- For a string whose last character is punctuation, the trailing-match
condition "everything after the maximal punctuation run is whitespace" holds
exactly when the whole string is punctuation. -/
theorem dropWhile_punct_allws_iff (l : List Char)
    (h : l.getLast?.all isPunctC = true) :
    (((l.dropWhile isPunctC).all isPySpace) = true) ↔ (l.all isPunctC = true) := by
  constructor
  · intro hws
    rcases heq : l.dropWhile isPunctC with _ | ⟨d, t⟩
    · rw [List.all_eq_true]
      intro a ha
      exact List.dropWhile_eq_nil_iff.1 heq a ha
    · exfalso
      rcases List.dropWhile_suffix (l := l) isPunctC with ⟨p, hp⟩
      rw [heq] at hp
      rcases hlast2 : (d :: t).getLast? with _ | c
      · exact absurd hlast2 (by simp)
      · have hlast : l.getLast? = some c := by
          rw [← hp, List.getLast?_append, hlast2]
          rfl
        rw [hlast] at h
        simp only [Option.all_some] at h
        have hmem : c ∈ d :: t := List.mem_of_getLast?_eq_some hlast2
        rw [heq] at hws
        rw [List.all_eq_true] at hws
        have := hws c hmem
        rw [punct_not_ws h] at this
        exact absurd this (by simp)
  · intro hall
    have : l.dropWhile isPunctC = [] :=
      List.dropWhile_eq_nil_iff.2 (fun a ha => List.all_eq_true.1 hall a ha)
    rw [this]
    simp

/-- On a string whose last character is punctuation, the leftmost-match
erasure of `[\.:!?]+\s*$` removes exactly the maximal trailing punctuation
run. -/
theorem subPunctWsEnd_eq_dropTrailing :
    ∀ (l : List Char), l.getLast?.all isPunctC = true →
      subPunctWsEnd l = (l.reverse.dropWhile isPunctC).reverse := by
  intro l
  induction l with
  | nil => intro _; rfl
  | cons c r ih =>
      intro h
      by_cases hall : (c :: r).all isPunctC = true
      · have hcond : isPunctC c = true ∧
            (((c :: r).dropWhile isPunctC).all isPySpace) = true := by
          refine ⟨by (rw [List.all_eq_true] at hall); exact hall c (by simp), ?_⟩
          exact (dropWhile_punct_allws_iff (c :: r) h).2 hall
        have hrev : (c :: r).reverse.dropWhile isPunctC = [] := by
          refine List.dropWhile_eq_nil_iff.2 ?_
          intro a ha
          rw [List.all_eq_true] at hall
          exact hall a (List.mem_reverse.1 ha)
        rw [subPunctWsEnd, if_pos hcond, hrev]
        rfl
      · have hcond : ¬ (isPunctC c = true ∧
            (((c :: r).dropWhile isPunctC).all isPySpace) = true) := by
          intro hc
          exact hall ((dropWhile_punct_allws_iff (c :: r) h).1 hc.2)
        rw [subPunctWsEnd, if_neg hcond]
        rcases r with _ | ⟨b, r'⟩
        · exfalso
          apply hall
          simp only [List.getLast?_singleton, Option.all_some] at h
          simpa using h
        · have hlast : (b :: r').getLast?.all isPunctC = true := by
            rwa [List.getLast?_cons_cons] at h
          rw [ih hlast]
          by_cases hrall : (b :: r').all isPunctC = true
          · have hnotc : isPunctC c = false := by
              rcases hpc : isPunctC c with _ | _
              · rfl
              · exfalso
                apply hall
                rw [List.all_eq_true]
                intro a ha
                rcases List.mem_cons.1 ha with rfl | hmem
                · exact hpc
                · exact List.all_eq_true.1 hrall a hmem
            have hrevnil : (b :: r').reverse.dropWhile isPunctC = [] := by
              refine List.dropWhile_eq_nil_iff.2 ?_
              intro a ha
              exact List.all_eq_true.1 hrall a (List.mem_reverse.1 ha)
            rw [show (c :: b :: r').reverse = (b :: r').reverse ++ [c] by simp,
              List.dropWhile_append, hrevnil]
            simp [hnotc]
          · have hrevne : (b :: r').reverse.dropWhile isPunctC ≠ [] := by
              intro hnil
              apply hrall
              rw [List.all_eq_true]
              intro a ha
              exact List.dropWhile_eq_nil_iff.1 hnil a (List.mem_reverse.2 ha)
            rw [show (c :: b :: r').reverse = (b :: r').reverse ++ [c] by simp,
              List.dropWhile_append]
            rw [if_neg (by simpa using hrevne)]
            simp

end FixInstructionPunctuation

/-! ## C7 -/

/-- C7 (amended): for every instruction string ending in a run of characters
from `{'.', '!', '?', ':'}`, `fix_instruction_punctuation` removes that
entire maximal trailing run, additionally strips leading and trailing
whitespace from what remains, and appends exactly one `':'`; in particular
`"Choose wisely!!"` becomes `"Choose wisely:"`. -/
theorem C7_fix_punctuation_trailing_run (s : List Char)
    (hne : s.isEmpty = false)
    (hp : s.getLast?.all FixInstructionPunctuation.isPunctC = true) :
    FixInstructionPunctuation.fix_instruction_punctuation s =
      pyStrip ((s.reverse.dropWhile FixInstructionPunctuation.isPunctC).reverse)
        ++ [':'] ∧
    FixInstructionPunctuation.fix_instruction_punctuation
      "Choose wisely!!".data = "Choose wisely:".data := by
  constructor
  · rw [FixInstructionPunctuation.fix_instruction_punctuation, if_neg (by simp [hne])]
    rw [FixInstructionPunctuation.subPunctWsEnd_eq_dropTrailing s hp]
  · rfl

/-- Witness for C7 at `"Choose wisely!!"`. -/
theorem C7_fix_punctuation_trailing_run_witness :
    FixInstructionPunctuation.fix_instruction_punctuation
        "Choose wisely!!".data =
      pyStrip (("Choose wisely!!".data.reverse.dropWhile
        FixInstructionPunctuation.isPunctC).reverse) ++ [':'] :=
  (C7_fix_punctuation_trailing_run "Choose wisely!!".data (by decide)
    (by decide)).1

/-- C7 counterexample: on `"Choose wisely !!"` (which ends in a punctuation
run) the function does not merely replace the trailing run by `':'` — it
also deletes the whitespace before the run, so the output differs from the
claimed value `"Choose wisely :"`. -/
theorem C7_counterexample :
    FixInstructionPunctuation.fix_instruction_punctuation
        "Choose wisely !!".data ≠
      ("Choose wisely !!".data.reverse.dropWhile
        FixInstructionPunctuation.isPunctC).reverse ++ [':'] := by
  decide

/-! ## C2 -/

set_option maxRecDepth 100000 in
set_option maxHeartbeats 2000000 in
/-- C2 (amended): `clean_instruction` maps the spec's example
`"Part 1) For 46-50 given the stem:"` to `"Given the stem"` followed by a
trailing colon, and re-applying it to that output is a no-op; but the
transformation is not idempotent on every instruction string (see the
counterexample). -/
theorem C2_clean_instruction_example :
    CleanInstructionHeaders.clean_instruction
        "Part 1) For 46-50 given the stem:".data = "Given the stem:".data ∧
    CleanInstructionHeaders.clean_instruction
        (CleanInstructionHeaders.clean_instruction
          "Part 1) For 46-50 given the stem:".data) =
      CleanInstructionHeaders.clean_instruction
        "Part 1) For 46-50 given the stem:".data :=
  ⟨by rfl, by rfl⟩

set_option maxRecDepth 100000 in
set_option maxHeartbeats 2000000 in
/-- C2 counterexample: `clean_instruction` is not idempotent.  The header
list removes each subject-name prefix at most once per application, so
`"Vocabulary Vocabulary choose:"` cleans to `"Vocabulary choose:"` and a
second application cleans that to `"Choose:"`. -/
theorem C2_counterexample :
    CleanInstructionHeaders.clean_instruction
        (CleanInstructionHeaders.clean_instruction
          "Vocabulary Vocabulary choose:".data) ≠
      CleanInstructionHeaders.clean_instruction
        "Vocabulary Vocabulary choose:".data := by
  decide

/-! ## C3 -/

set_option maxRecDepth 100000 in
set_option maxHeartbeats 2000000 in
/-- C3: under pre-2018 mode, the single physical line
`"a. Rome b. Athens c. Sparta d. Corinth"` following a question start is
split into the four options `{A: Rome, B: Athens, C: Sparta, D: Corinth}`,
the text between successive markers being attributed to the preceding
letter. -/
theorem C3_inline_multi_option_split :
    (FixedParser.parse_test_file_fixed true
        "1. Which city?\na. Rome b. Athens c. Sparta d. Corinth".data).map
      (fun q => (q.question_number, q.options)) =
    [(1, [('A', "Rome".data), ('B', "Athens".data),
          ('C', "Sparta".data), ('D', "Corinth".data)])] := by
  rfl

/-! ## C4 -/

set_option maxRecDepth 100000 in
/-- C4 (amended): parsing the key blob `"1. A\n2. B\n3. C"` yields the
mapping `{1: A, 2: B, 3: C}`; the merger of `convert_test_to_json` keeps
every record (the records of the output are exactly the input records), and
a record whose index is absent from the key mapping gets the empty string —
not `"UNKNOWN"` — as its `correct_answer`.  The merge is a total function
(no exception is possible). -/
theorem C4_answer_key_round_trip :
    ParseAllFormattedTests.parse_answer_key "1. A\n2. B\n3. C".data =
      [(1, 'A'), (2, 'B'), (3, 'C')] ∧
    (∀ (ans : List (Nat × Char)) (qs : List ParseAllFormattedTests.Question),
      (ParseAllFormattedTests.matchAnswers ans qs).map Prod.fst = qs) ∧
    (∀ (ans : List (Nat × Char)) (q : ParseAllFormattedTests.Question),
      ans.lookup q.question_number = none →
        ParseAllFormattedTests.matchAnswers ans [q] = [(q, [])]) := by
  refine ⟨by rfl, ?_, ?_⟩
  · intro ans qs
    induction qs with
    | nil => rfl
    | cons q t ih =>
        simpa [ParseAllFormattedTests.matchAnswers] using ih
  · intro ans q h
    simp [ParseAllFormattedTests.matchAnswers, h]

set_option maxRecDepth 100000 in
/-- Witness for C4: the merge against an empty key mapping keeps a record
with index 4 and fills in the empty string. -/
theorem C4_answer_key_round_trip_witness :
    ParseAllFormattedTests.matchAnswers []
        [⟨4, "body".data, []⟩] = [(⟨4, "body".data, []⟩, [])] :=
  C4_answer_key_round_trip.2.2 [] ⟨4, "body".data, []⟩ (by rfl)

set_option maxRecDepth 100000 in
/-- C4 counterexample: a record whose index (4) is absent from the parsed
key `{1: A, 2: B, 3: C}` receives the empty string as `correct_answer`,
which is not the `"UNKNOWN"` sentinel the claim names. -/
theorem C4_counterexample :
    (ParseAllFormattedTests.matchAnswers
        (ParseAllFormattedTests.parse_answer_key "1. A\n2. B\n3. C".data)
        [⟨4, "body".data, []⟩]).map (fun p => p.2) = [[]] ∧
      ([] : List Char) ≠ "UNKNOWN".data := by
  exact ⟨by rfl, by decide⟩

/-! ## C5 -/

set_option maxRecDepth 100000 in
/-- C5 counterexample: two of the cited answer-key parsers are not
case-insensitive.  On the blob `"1. a"` the `consolidate_with_answers`
parser (pattern `(\d+)\.\s*([A-D])`, no flags) and the
`fixed_parser`/`parse_all_formatted_tests` parser (pattern
`(\d+)\.\s+([A-D])`) both produce the empty mapping instead of `{1: A}`. -/
theorem C5_counterexample :
    ConsolidateWithAnswers.parse_answer_key "1. a".data = [] ∧
    ParseAllFormattedTests.parse_answer_key "1. a".data = [] ∧
    SemanticParser.parse_answer_key "1. a".data = [(1, 'A')] := by
  exact ⟨by rfl, by rfl, by rfl⟩

namespace AnswerKey

/-- The four lowercase option letters, as a disjunction. -/
theorem isLowerAD_cases {c : Char} (h : Rx.isLowerAD c = true) :
    c = 'a' ∨ c = 'b' ∨ c = 'c' ∨ c = 'd' := by
  simpa [Rx.isLowerAD, or_assoc] using h

/-- `upAD` does not affect digit-ness. -/
theorem upAD_digit (c : Char) : isDigitC (upAD c) = isDigitC c := by
  by_cases h : Rx.isLowerAD c = true
  · rcases isLowerAD_cases h with rfl | rfl | rfl | rfl <;> decide
  · simp [upAD, h]

/-- `upAD` does not affect whitespace-ness. -/
theorem upAD_space (c : Char) : isPySpace (upAD c) = isPySpace c := by
  by_cases h : Rx.isLowerAD c = true
  · rcases isLowerAD_cases h with rfl | rfl | rfl | rfl <;> decide
  · simp [upAD, h]

/-- `upAD` fixes the period character. -/
theorem upAD_dot (c : Char) : (upAD c = '.') ↔ (c = '.') := by
  by_cases h : Rx.isLowerAD c = true
  · rcases isLowerAD_cases h with rfl | rfl | rfl | rfl <;> constructor <;> intro hc <;> simp_all [upAD] <;> revert hc <;> decide
  · simp [upAD, h]

/-- The case-sensitive letter test after `upAD` equals the case-insensitive letter test before it. -/
theorem upAD_letter (c : Char) :
    (Rx.isUpperAD (upAD c) = true) ↔
      (Rx.isUpperAD c = true ∨ Rx.isLowerAD c = true) := by
  by_cases h : Rx.isLowerAD c = true
  · rcases isLowerAD_cases h with rfl | rfl | rfl | rfl <;> simp [upAD] <;> decide
  · simp [upAD, h]

/-- Normalising after `upAD` is the same as normalising directly. -/
theorem upAD_toUpper (c : Char) : toUpperA (upAD c) = toUpperA c := by
  by_cases h : Rx.isLowerAD c = true
  · rcases isLowerAD_cases h with rfl | rfl | rfl | rfl <;> decide
  · simp [upAD, h]

/-- `upAD` fixes digit strings. -/
theorem upAD_digits_fix {l : List Char} :
    (l.takeWhile isDigitC).map upAD = l.takeWhile isDigitC := by
  have h0 : ∀ a ∈ l.takeWhile isDigitC, upAD a = a := by
    intro a ha
    have hd : isDigitC a = true := List.mem_takeWhile_imp ha
    by_cases h : Rx.isLowerAD a = true
    · rcases isLowerAD_cases h with rfl | rfl | rfl | rfl <;>
        exact absurd hd (by decide)
    · simp [upAD, h]
  simp [List.map_congr_left h0]

/-- The case-insensitive key match on a blob agrees with the case-sensitive match on the `a`-`d`-uppercased blob: same captured pair, corresponding remainders. -/
theorem tryKeyAt_ci (l : List Char) :
    tryKeyAt false false (l.map upAD) =
      (tryKeyAt false true l).map (fun pr => (pr.1, pr.2.map upAD)) := by
  have e1 : (isDigitC ∘ upAD) = isDigitC := funext fun c => upAD_digit c
  have e2 : (isPySpace ∘ upAD) = isPySpace := funext fun c => upAD_space c
  simp only [tryKeyAt, List.takeWhile_map, List.dropWhile_map, e1]
  rcases h1 : l.takeWhile isDigitC with _ | ⟨d0, ds0⟩
  · simp
  · rcases h2 : l.dropWhile isDigitC with _ | ⟨c0, r0⟩
    · simp
    · have hfix : (d0 :: ds0).map upAD = d0 :: ds0 := by
        rw [← h1]
        exact upAD_digits_fix
      by_cases hc0 : c0 = '.'
      · subst hc0
        simp only [List.map_cons, show upAD '.' = '.' from by decide,
          List.takeWhile_map, List.dropWhile_map, e2]
        rcases h3 : r0.dropWhile isPySpace with _ | ⟨e0, rest0⟩
        · simp
        · simp only [List.map_cons]
          by_cases hlet : Rx.isUpperAD e0 = true ∨ Rx.isLowerAD e0 = true
          · have h01 : Rx.isUpperAD (upAD e0) = true := (upAD_letter e0).2 hlet
            have h02 : Rx.isUpperAD e0 = true ∨ True ∧ Rx.isLowerAD e0 = true := by
              rcases hlet with h | h
              · exact Or.inl h
              · exact Or.inr ⟨trivial, h⟩
            simp [h01, h02, upAD_toUpper]
            refine ⟨hlet, ?_⟩
            rw [show upAD d0 :: List.map upAD ds0 = (d0 :: ds0).map upAD from rfl,
              hfix]
          · have hn1 : ¬ Rx.isUpperAD (upAD e0) = true :=
              fun hcon => hlet ((upAD_letter e0).1 hcon)
            simp [hn1, hlet]
      · have hne : upAD c0 ≠ '.' := fun hcon => hc0 ((upAD_dot c0).1 hcon)
        simp only [List.map_cons]
        split <;> split <;> simp_all

/-- The scan as a whole: the case-insensitive `findall` on a blob equals the
case-sensitive `findall` on the `a`-`d`-uppercased blob. -/
theorem findallKeyF_ci :
    ∀ (f : Nat) (l : List Char),
      findallKeyF false false f (l.map upAD) = findallKeyF false true f l := by
  intro f
  induction f with
  | zero => intro l; rfl
  | succ f ih =>
      intro l
      rcases l with _ | ⟨c, r⟩
      · rfl
      · simp only [findallKeyF, List.map_cons]
        rw [show upAD c :: List.map upAD r = (c :: r).map upAD from rfl]
        rw [tryKeyAt_ci]
        rcases htry : tryKeyAt false true (c :: r) with _ | ⟨p, rest⟩
        · simp [htry, ih r]
        · simp [htry, ih rest]

end AnswerKey

/-! ## C5 (amended theorem) -/

set_option maxRecDepth 100000 in
/-- C5 (amended): the `semantic_parser` answer-key parser is case-insensitive
in the letter and normalises it to uppercase — on every key blob it produces
exactly what the uppercase-only parser produces on the blob with `a`-`d`
uppercased; the `consolidate_with_answers` and `fixed_parser` variants match
uppercase letters only (a lowercase pair is silently ignored there, see the
counterexample). -/
theorem C5_semantic_key_case_insensitive :
    (∀ blob : List Char,
      SemanticParser.parse_answer_key blob =
        ConsolidateWithAnswers.parse_answer_key (blob.map AnswerKey.upAD)) ∧
    SemanticParser.parse_answer_key "2. c\n1. b\n3. A".data =
      [(2, 'C'), (1, 'B'), (3, 'A')] := by
  constructor
  · intro blob
    unfold SemanticParser.parse_answer_key ConsolidateWithAnswers.parse_answer_key
      AnswerKey.findallKey
    rw [List.length_map, AnswerKey.findallKeyF_ci]
  · rfl

/-! ## C10 -/

namespace ConsolidateWithAnswers

/-- The fold of `annotate_all` with an arbitrary starting accumulator. -/
theorem annotate_all_foldl (year subject : List Char) (pre : Bool)
    (key : List (Nat × Char)) :
    ∀ (qs : List Question) (acc : List Question × Nat),
      qs.foldl
        (fun acc q =>
          (acc.1 ++ [annotate_question year subject pre key q],
           acc.2 + if (key.lookup q.question_number).isSome then 1 else 0)) acc =
      (acc.1 ++ qs.map (annotate_question year subject pre key),
       acc.2 + (qs.filter fun q => (key.lookup q.question_number).isSome).length) := by
  intro qs
  induction qs with
  | nil => intro acc; simp
  | cons q t ih =>
      intro acc
      rw [List.foldl_cons, ih]
      by_cases h : (key.lookup q.question_number).isSome
      · simp [h, List.filter_cons, Nat.add_assoc, Nat.add_comm 1]
      · simp [h, List.filter_cons]

end ConsolidateWithAnswers

/-- C10: the consolidation pass unconditionally overwrites `correct_answer`:
the result does not depend on any value the field carried before; the new
value is the key-map letter when the index is present and `None` otherwise
(in particular `None` for every question when the key mapping is empty, as
when no `*_key.txt` file exists); the records are otherwise processed
one-for-one, and the `questions_with_answers` statistic counts exactly the
questions whose index is in the key. -/
theorem C10_consolidation_overwrites_correct_answer :
    (∀ (year subject : List Char) (pre : Bool) (key : List (Nat × Char))
        (q : ConsolidateWithAnswers.Question) (v : Option Char),
      ConsolidateWithAnswers.annotate_question year subject pre key
          { q with correct_answer := v } =
        ConsolidateWithAnswers.annotate_question year subject pre key q) ∧
    (∀ (year subject : List Char) (pre : Bool) (key : List (Nat × Char))
        (q : ConsolidateWithAnswers.Question),
      (ConsolidateWithAnswers.annotate_question year subject pre key
          q).correct_answer = key.lookup q.question_number) ∧
    (∀ (year subject : List Char) (pre : Bool) (key : List (Nat × Char))
        (qs : List ConsolidateWithAnswers.Question),
      (ConsolidateWithAnswers.annotate_all year subject pre key qs).1 =
          qs.map (ConsolidateWithAnswers.annotate_question year subject pre key) ∧
        (ConsolidateWithAnswers.annotate_all year subject pre key qs).2 =
          (qs.filter fun q =>
            (key.lookup q.question_number).isSome).length) ∧
    (∀ (year subject : List Char) (pre : Bool)
        (q : ConsolidateWithAnswers.Question),
      (ConsolidateWithAnswers.annotate_question year subject pre
          [] q).correct_answer = none) := by
  refine ⟨?_, ?_, ?_, ?_⟩
  · intro year subject pre key q v
    cases q
    rfl
  · intro year subject pre key q
    rfl
  · intro year subject pre key qs
    unfold ConsolidateWithAnswers.annotate_all
    rw [ConsolidateWithAnswers.annotate_all_foldl]
    simp
  · intro year subject pre q
    rfl

/-! ## C1 -/

namespace ParseAllFormattedTests

/-- Closing a question preserves "every stored record has an option": the
close appends the previous record only under the `len(options) > 0` guard. -/
theorem closePrev_options (st : St)
    (h : ∀ q ∈ st.questions, q.options ≠ []) :
    ∀ q ∈ closePrev st, q.options ≠ [] := by
  unfold closePrev
  rcases st.current with _ | c
  · exact h
  · dsimp only
    by_cases hlen : 0 < c.options.length
    · rw [if_pos hlen]
      intro q hq
      rcases List.mem_append.1 hq with hmem | hmem
      · exact h q hmem
      · have : q = c := by simpa using hmem
        subst this
        exact List.ne_nil_of_length_pos hlen
    · rw [if_neg hlen]
      exact h

/-- Each loop iteration of `parse_test_file` preserves the invariant. -/
theorem step_options (st : St) (line : List Char)
    (h : ∀ q ∈ st.questions, q.options ≠ []) :
    ∀ q ∈ (step st line).questions, q.options ≠ [] := by
  intro q hq
  unfold step at hq
  dsimp only at hq
  repeat' split at hq
  all_goals first
    | exact h q hq
    | exact closePrev_options st h q hq

/-- The whole fold of `parse_test_file` preserves the invariant. -/
theorem foldl_step_options :
    ∀ (lines : List (List Char)) (st : St),
      (∀ q ∈ st.questions, q.options ≠ []) →
      ∀ q ∈ (lines.foldl step st).questions, q.options ≠ [] := by
  intro lines
  induction lines with
  | nil => intro st h; exact h
  | cons l t ih => intro st h; exact ih (step st l) (step_options st l h)

end ParseAllFormattedTests

/-- C1 (amended): `parse_test_file` does not guarantee four options per
emitted record.  A previous record is appended once it has at least one
option, and the final record is appended unconditionally; hence every
emitted record except possibly the last has at least one option, while the
last may have none (see the counterexample for records emitted with one and
with zero options). -/
theorem C1_nonfinal_records_have_an_option
    (content : List Char) (q : ParseAllFormattedTests.Question)
    (hq : q ∈ (ParseAllFormattedTests.parse_test_file content).dropLast) :
    q.options ≠ [] := by
  have hst := ParseAllFormattedTests.foldl_step_options (content.splitOn '\n')
    ⟨[], none, none⟩ (by intro q hq; simp at hq)
  unfold ParseAllFormattedTests.parse_test_file at hq
  dsimp only at hq
  rcases hcur : ((content.splitOn '\n').foldl ParseAllFormattedTests.step
      ⟨[], none, none⟩).current with _ | c
  · rw [hcur] at hq
    simp only [Option.toList_none, List.append_nil] at hq
    exact hst q ((List.dropLast_sublist _).subset hq)
  · rw [hcur] at hq
    simp only [Option.toList_some] at hq
    rw [List.dropLast_concat] at hq
    exact hst q hq

set_option maxRecDepth 200000 in
set_option maxHeartbeats 2000000 in
/-- Witness for C1: the first record of the counterexample parse is not the
last and indeed carries an option. -/
theorem C1_nonfinal_records_have_an_option_witness :
    (⟨1, "Q one".data, [('A', "Rome".data)]⟩ :
        ParseAllFormattedTests.Question).options ≠ [] :=
  C1_nonfinal_records_have_an_option "1. Q one\nA. Rome\n2. Q two".data
    ⟨1, "Q one".data, [('A', "Rome".data)]⟩ (by decide)

set_option maxRecDepth 200000 in
set_option maxHeartbeats 2000000 in
/-- C1 counterexample: on the three-line input below, `parse_test_file`
emits a record with a single option (closed mid-file by the next question
start) and a final record with no options at all (the final append has no
guard), so emitted records need not have exactly four non-empty options and
incomplete records are not dropped. -/
theorem C1_counterexample :
    (ParseAllFormattedTests.parse_test_file
        "1. Q one\nA. Rome\n2. Q two".data).map
      (fun q => q.options.length) = [1, 0] ∧
    ¬ (∀ q ∈ ParseAllFormattedTests.parse_test_file
          "1. Q one\nA. Rome\n2. Q two".data, q.options.length = 4) := by
  exact ⟨by rfl, by decide⟩

/-! ## C6 -/

set_option maxRecDepth 200000 in
set_option maxHeartbeats 2000000 in
/-- C6: instruction inheritance.  Concretely, an instruction line followed by
two question spans with no instruction-shaped line between them yields two
records carrying the identical instruction string.  Generally, processing
any line that is neither instruction-shaped (the post-2018 instruction test)
nor a `Part x)` instruction extraction leaves the pending
`current_instruction` unchanged — in particular a question start (which
closes the previous record) never clears it. -/
theorem C6_instruction_inheritance :
    ((FixedParser.parse_test_file_fixed false
        ("Choose the best definition:\n1. gravis\nA. heavy B. light C. fast D. slow\n" ++
         "2. celer\nA. quick B. tall C. old D. new").data).map
      (fun q => q.instruction) =
      [some "Choose the best definition:".data,
       some "Choose the best definition:".data]) ∧
    (∀ (st : FixedParser.St) (line : List Char),
      FixedParser.postInstrCheck (pyStrip line) = false →
      Rx.matchPartParen (pyStrip line) = none →
      (FixedParser.step false st line).current_instruction =
        st.current_instruction) := by
  constructor
  · rfl
  · intro st line h1 h2
    unfold FixedParser.step FixedParser.postLine
    dsimp only
    repeat' split
    all_goals first | rfl | simp_all

set_option maxRecDepth 200000 in
/-- Witness for C6: an option line does not change the pending instruction. -/
theorem C6_instruction_inheritance_witness :
    (FixedParser.step false ⟨[], none, none, none, none⟩
        "A. Rome".data).current_instruction = none :=
  C6_instruction_inheritance.2 ⟨[], none, none, none, none⟩ "A. Rome".data
    (by decide) (by decide)

namespace FixedParser

/-- Python dict assignment: looking up the assigned key yields the new
value. -/
theorem dictSet_lookup_self {α : Type} [DecidableEq α] (k : α) (v : List Char)
    (m : List (α × List Char)) : (dictSet k v m).lookup k = some v := by
  induction m with
  | nil => simp [dictSet, List.lookup]
  | cons p rest ih =>
      rcases p with ⟨k0, v0⟩
      by_cases h : k0 = k
      · subst h
        simp [dictSet, List.lookup]
      · simp only [dictSet, if_neg h, List.lookup]
        have hb : (k == k0) = false := beq_eq_false_iff_ne.2 (fun hc => h hc.symm)
        rw [hb]
        exact ih

/-- Python dict assignment: every other key is untouched. -/
theorem dictSet_lookup_other {α : Type} [DecidableEq α] (k k' : α)
    (v : List Char) (m : List (α × List Char)) (h : k' ≠ k) :
    (dictSet k v m).lookup k' = m.lookup k' := by
  induction m with
  | nil =>
      simp only [dictSet, List.lookup]
      have hb : (k' == k) = false := beq_eq_false_iff_ne.2 h
      rw [hb]
  | cons p rest ih =>
      rcases p with ⟨k0, v0⟩
      by_cases h0 : k0 = k
      · simp only [dictSet, if_pos h0, List.lookup]
        have hb : (k' == k) = false := beq_eq_false_iff_ne.2 h
        have hb0 : (k' == k0) = false :=
          beq_eq_false_iff_ne.2 fun hc => h (hc.trans h0)
        rw [hb, hb0]
      · simp only [dictSet, if_neg h0, List.lookup]
        by_cases h1 : k' = k0
        · subst h1
          rw [show (k' == k') = true from beq_self_eq_true k']
        · have hb : (k' == k0) = false := beq_eq_false_iff_ne.2 h1
          rw [hb]
          exact ih

/-- When a record is open, a lowercase option line — whatever its letter —
reaches the option branch of the pre-2018 assembler and only rewrites the
options dict of the open record. -/
theorem preLine_option_overwrite (st : St) (c : Question) (letter : Char)
    (rest g2 : List Char) (hcur : st.current = some c)
    (hlet : Rx.isLowerAD letter = true)
    (hopt : Rx.matchOptStar Rx.isLowerAD (letter :: '.' :: rest) =
      some (letter, g2)) :
    preLine st (letter :: '.' :: rest) =
      { st with
        current :=
          some { c with options := preOptionsUpdate letter (pyStrip g2) c.options } } := by
  have hrom : Rx.isRomanC letter = false := by
    rcases AnswerKey.isLowerAD_cases hlet with rfl | rfl | rfl | rfl <;> rfl
  have hdig : isDigitC letter = false := by
    rcases AnswerKey.isLowerAD_cases hlet with rfl | rfl | rfl | rfl <;> rfl
  have hPne : ('P' : Char) ≠ letter := by
    rcases AnswerKey.isLowerAD_cases hlet with rfl | rfl | rfl | rfl <;> decide
  have e1 : Rx.matchRoman ':' (letter :: '.' :: rest) = none := by
    simp [Rx.matchRoman, List.takeWhile_cons, hrom]
  have e2 : Rx.matchRoman '.' (letter :: '.' :: rest) = none := by
    simp [Rx.matchRoman, List.takeWhile_cons, hrom]
  have epart : Rx.partRest (letter :: '.' :: rest) = none := by
    simp [Rx.partRest, Rx.dropLit, startsWithL, decide_eq_false hPne]
  have e3 : Rx.matchPartParen (letter :: '.' :: rest) = none := by
    simp [Rx.matchPartParen, epart]
  have e4 : Rx.matchPartEnDash (letter :: '.' :: rest) = false := by
    simp [Rx.matchPartEnDash, epart]
  have e5 : Rx.matchPartHyphen (letter :: '.' :: rest) = false := by
    simp [Rx.matchPartHyphen, epart]
  have e6 : Rx.matchPartRomanColon (letter :: '.' :: rest) = false := by
    simp [Rx.matchPartRomanColon, epart]
  have e8 : Rx.matchQuestionLine (letter :: '.' :: rest) = none := by
    simp [Rx.matchQuestionLine, Rx.matchNumDot, List.takeWhile_cons,
      List.dropWhile_cons, hdig]
  have e7 : preInstrCheck (letter :: '.' :: rest) = false := by
    simp [preInstrCheck, hopt]
  have e9 : preContCheck (letter :: '.' :: rest) = false := by
    simp [preContCheck, hopt]
  unfold preLine
  simp only [e1, e2, e3, e4, e5, e6, e7, e8, e9, hopt, hcur,
    Option.isSome_none, Bool.false_eq_true, if_false]

end FixedParser

/-! ## C8 -/

/-- C8 (amended): when a record is open and an option line arrives for any
letter — out of order or a duplicate of an already-filled letter — the
assembler does not treat it as a continuation of the open option's text; it
stores the line's own text under the line's own letter by dict assignment,
overwriting any previous value for that letter and leaving the other
letters unchanged, and no error is raised (the step is a total function). -/
theorem C8_out_of_order_option_overwrites :
    (∀ (st : FixedParser.St) (c : FixedParser.Question) (letter : Char)
        (rest g2 : List Char),
      st.current = some c →
      Rx.isLowerAD letter = true →
      Rx.matchOptStar Rx.isLowerAD (letter :: '.' :: rest) =
        some (letter, g2) →
      FixedParser.preLine st (letter :: '.' :: rest) =
        { st with
          current :=
            some { c with
                   options := FixedParser.preOptionsUpdate letter
                     (pyStrip g2) c.options } }) ∧
    (∀ (letter : Char) (text : List Char) (opts : List (Char × List Char)),
      ParseAllFormattedTests.searchMidOpt Rx.isLowerBD text = false →
      FixedParser.preOptionsUpdate letter text opts =
        dictSet (toUpperA letter) text opts) ∧
    (∀ (k : Char) (v : List Char) (m : List (Char × List Char)),
      (dictSet k v m).lookup k = some v) ∧
    (∀ (k k' : Char) (v : List Char) (m : List (Char × List Char)),
      k' ≠ k → (dictSet k v m).lookup k' = m.lookup k') := by
  refine ⟨FixedParser.preLine_option_overwrite, ?_, ?_, ?_⟩
  · intro letter text opts h
    simp [FixedParser.preOptionsUpdate, h]
  · intro k v m
    exact FixedParser.dictSet_lookup_self k v m
  · intro k k' v m h
    exact FixedParser.dictSet_lookup_other k k' v m h

set_option maxRecDepth 200000 in
/-- Witness for C8: a duplicate `a.` option line arriving while option A is
already filled rewrites only the options dict of the open record. -/
theorem C8_out_of_order_option_overwrites_witness :
    FixedParser.preLine
        ⟨[], some ⟨1, "W".data, [('A', "first".data)], none, none, none⟩,
          none, none, none⟩
        ('a' :: '.' :: " second".data) =
      { questions := [],
        current :=
          some ⟨1, "W".data,
            FixedParser.preOptionsUpdate 'a' (pyStrip "second".data)
              [('A', "first".data)], none, none, none⟩,
        current_section := none, section_context := none,
        current_instruction := none } :=
  C8_out_of_order_option_overwrites.1
    ⟨[], some ⟨1, "W".data, [('A', "first".data)], none, none, none⟩,
      none, none, none⟩
    ⟨1, "W".data, [('A', "first".data)], none, none, none⟩
    'a' " second".data "second".data rfl (by decide) (by rfl)

set_option maxRecDepth 200000 in
set_option maxHeartbeats 2000000 in
/-- C8 counterexample: after `"a. first"` fills option A, the duplicate line
`"a. second"` is not appended to the open option's text — the emitted record
has `A = "second"`, and the earlier text `"first"` is gone entirely. -/
theorem C8_counterexample :
    (FixedParser.parse_test_file_fixed true
        "1. Which city?\na. first\na. second".data).map (fun q => q.options) =
      [[('A', "second".data)]] ∧
    containsL "first".data "second".data = false := by
  exact ⟨by rfl, by rfl⟩
